import Mathlib

/-!
Verification of the mol* Structure/Unit data model and the query/grouping
engine, shallowly embedded from
`src/mol-model/structure/structure/structure.ts` and the atom-groups query
module.  JS 32-bit integer coercion (`| 0`) is modelled by `toInt32`;
the lazily cached derived properties (`hashCode`, `transformHash`, `model`)
are modelled by explicit state passing on cache fields that start at the
sentinel `-1` (respectively `none`).  Hash primitives and ordered-set /
segmentation collaborators that live outside the embedded files are
modelled from the specification's description of their contracts.
-/

namespace Molstar

/-- JS `x | 0`: coercion to a signed 32-bit integer. -/
def toInt32 (n : Int) : Int := (n + 2 ^ 31) % 2 ^ 32 - 2 ^ 31

/-- Modelled from the spec: `hash1` (mol-data/util, not among the embedded
files) is a deterministic 32-bit finalization step of the hash
combination; the spec constrains only that `hashCode` is a deterministic,
order-sensitive combination, so any fixed function is faithful. -/
def hash1 (h : Int) : Int := toInt32 (h * 2654435761 + 1)

/-- Modelled from the spec: `SortedArray.hashCode` (mol-data/int, not among
the embedded files) is a deterministic hash of the index-set content. -/
def sortedHash (xs : List Int) : Int :=
  xs.foldl (fun h x => toInt32 (31 * h + x)) 23

/-- Modelled from the spec: `hashFnv32a` (mol-data/util, not among the
embedded files) hashes the ordered list of unit ids (32-bit FNV-1a). -/
def hashFnv32a (xs : List Nat) : Nat :=
  xs.foldl (fun h x => ((h ^^^ x) * 16777619) % 4294967296) 2166136261

/-- Call-contract model of `Mat4` (mol-math linear algebra is an external
collaborator): only the two predicates `Structure.transform` consults. -/
structure Mat4 where
  isIdentity : Bool
  isRotationAndTranslation : Bool
deriving DecidableEq, Repr

/-- One unit of a structure: identity tags, owning-model reference,
symmetry-operator matrix and the ordered element index set. -/
structure StructUnit where
  id : Nat
  invariantId : Nat
  chainGroupId : Nat
  modelRef : Nat
  operator : Mat4
  elements : List Int
deriving DecidableEq, Repr

/-- `Unit.applyOperator(id, op)`: a copy of the unit under a new id and a
new symmetry operator; element set and the other tags are kept. -/
def StructUnit.applyOperator (u : StructUnit) (id : Nat) (op : Mat4) : StructUnit :=
  { u with id := id, operator := op }

/-- A `Structure`: its unit array plus the `_props` fields the claims
consult — the collapsed parent link, designated master/representative
models, and the caches of `model`, `hashCode` and `transformHash`
(`-1` = not yet computed, as in the source). -/
inductive Structure where
  | mk (units : List StructUnit) (parent : Option Structure)
       (masterModel : Option Nat) (representativeModel : Option Nat)
       (modelCache : Option Nat)
       (hashCodeCache : Int) (transformHashCache : Int)

def Structure.units : Structure → List StructUnit
  | .mk u _ _ _ _ _ _ => u

def Structure.parent : Structure → Option Structure
  | .mk _ p _ _ _ _ _ => p

def Structure.masterModel : Structure → Option Nat
  | .mk _ _ m _ _ _ _ => m

def Structure.representativeModel : Structure → Option Nat
  | .mk _ _ _ r _ _ _ => r

def Structure.modelCache : Structure → Option Nat
  | .mk _ _ _ _ c _ _ => c

def Structure.hashCodeCache : Structure → Int
  | .mk _ _ _ _ _ h _ => h

def Structure.transformHashCache : Structure → Int
  | .mk _ _ _ _ _ _ t => t

def Structure.withHashCache : Structure → Int → Structure
  | .mk u p m r c _ t, h => .mk u p m r c h t

def Structure.withTransformHashCache : Structure → Int → Structure
  | .mk u p m r c h _, t => .mk u p m r c h t

def Structure.withModelCache : Structure → Option Nat → Structure
  | .mk u p m r _ h t, c => .mk u p m r c h t

/-- The source's sorted-order detection in `initUnits`: scan for an
adjacent descent of unit ids. -/
def unitsSortedById : List StructUnit → Bool
  | u :: v :: rest => !(v.id < u.id : Bool) && unitsSortedById (v :: rest)
  | _ => true

/-- The in-place sort of `initUnits` (`sort(units, 0, len, cmpUnits,
arraySwap)` with `cmpUnits` comparing unit ids); the generic sort lives in
mol-data/util, so any comparison sort by id is faithful — unit ids are
unique within a structure. -/
def sortUnitsById (l : List StructUnit) : List StructUnit :=
  l.insertionSort fun a b => a.id ≤ b.id

/-- The content of the caller's unit array after `initUnits` ran: the
array is left alone when already sorted by id, and sorted in place
otherwise; `structure.units` aliases this very array. -/
def initUnitsArray (units : List StructUnit) : List StructUnit :=
  if unitsSortedById units then units else sortUnitsById units

/-- `Structure.Props` (the fields the claims consult). -/
structure Props where
  parent : Option Structure := none
  masterModel : Option Nat := none
  representativeModel : Option Nat := none

/-- The `Structure` constructor: sorts the unit array via `initUnits`,
collapses the parent link (`props.parent.parent || props.parent`) and
inherits master/representative models from the parent when not given;
all lazy caches start unset. -/
def Structure.make (units : List StructUnit) (props : Props) : Structure :=
  .mk (initUnitsArray units)
      (props.parent.map fun p => p.parent.getD p)
      (match props.masterModel with
        | some m => some m
        | none => props.parent.bind Structure.masterModel)
      (match props.representativeModel with
        | some m => some m
        | none => props.parent.bind Structure.representativeModel)
      none (-1) (-1)

/-- `elementCount`: the sum of the units' element-set sizes (computed at
construction in the source; a pure function of the unit array). -/
def Structure.elementCount (s : Structure) : Int :=
  (s.units.map fun u => (u.elements.length : Int)).sum

/-- `computeHash` of the source, as a function of a unit list and the
element count: `h = 23`; per unit `h = (31*h + u.id)|0` then
`h = (31*h + SortedArray.hashCode(u.elements))|0`; finally
`h = (31*h + elementCount)|0`, `h = hash1(h)`, and `-1` is mapped to 0
so the cache sentinel is never produced. -/
def computeHashUnits (units : List StructUnit) (elementCount : Int) : Int :=
  let h := units.foldl
    (fun h u => toInt32 (31 * toInt32 (31 * h + (u.id : Int)) + sortedHash u.elements)) 23
  let h2 := toInt32 (31 * h + elementCount)
  let h3 := hash1 h2
  if h3 = -1 then 0 else h3

/-- The same hash combination as a function of the ordered
(unit id, element set) pairs alone; `computeHashUnits` factors through
this, which is the formal sense of "pure function of the pairs". -/
def pureHashPairs (ps : List (Nat × List Int)) : Int :=
  let h := ps.foldl
    (fun h p => toInt32 (31 * toInt32 (31 * h + (p.1 : Int)) + sortedHash p.2)) 23
  let h2 := toInt32 (31 * h + (ps.map fun p => (p.2.length : Int)).sum)
  let h3 := hash1 h2
  if h3 = -1 then 0 else h3

/-- The `hashCode` getter with its cache, by state passing: return the
cached value unless it is the sentinel `-1`, else compute and store. -/
def Structure.getHashCode (s : Structure) : Int × Structure :=
  if s.hashCodeCache ≠ -1 then (s.hashCodeCache, s)
  else
    let h := computeHashUnits s.units s.elementCount
    (h, s.withHashCache h)

/-- The `transformHash` getter with its cache: a hash of the ordered list
of unit ids only. -/
def Structure.getTransformHash (s : Structure) : Int × Structure :=
  if s.transformHashCache ≠ -1 then (s.transformHashCache, s)
  else
    let h : Int := (hashFnv32a (s.units.map (·.id)) : Int)
    (h, s.withTransformHashCache h)

/-- `Structure.transform`: the identity matrix returns the structure
itself; a matrix that is not rotation+translation throws; otherwise each
unit is replaced by `u.applyOperator(u.id, op)` — keeping its id — and a
new structure is built with the original as parent. -/
def Structure.transform (s : Structure) (m : Mat4) : Except String Structure :=
  if m.isIdentity then .ok s
  else if !m.isRotationAndTranslation then
    .error "Only rotation/translation combination can be applied."
  else
    .ok (Structure.make (s.units.map fun u => u.applyOperator u.id m)
          { parent := some s })

/-- `UniqueArray`-style deduplication keeping the first occurrence of each
key in order (mol-data/generic, modelled from its call contract). -/
def firstDedup (ks : List Nat) : List Nat :=
  ks.foldl (fun acc k => if k ∈ acc then acc else acc ++ [k]) []

/-- `getModels`: the distinct models referenced by the units, in
first-seen order. -/
def Structure.modelsOf (s : Structure) : List Nat :=
  firstDedup (s.units.map (·.modelRef))

/-- The `model` getter: cached model, else the designated representative,
else the designated master, else fail for more than one referenced model
and otherwise return (and cache) the single referenced model. -/
def Structure.getModel (s : Structure) : Except String (Option Nat × Structure) :=
  match s.modelCache with
  | some m => .ok (some m, s)
  | none =>
    match s.representativeModel with
    | some m => .ok (some m, s)
    | none =>
      match s.masterModel with
      | some m => .ok (some m, s)
      | none =>
        let models := s.modelsOf
        if models.length > 1 then
          .error "The structure is based on multiple models and has neither a master- nor a representative-model."
        else .ok (models.head?, s.withModelCache models.head?)

/-- `root`: the parent or the structure itself when it is the root. -/
def Structure.root (s : Structure) : Structure := s.parent.getD s

/-- Provenance never nests: the parent, when present, has no parent. -/
def noNestedParent (s : Structure) : Prop :=
  ∀ p, s.parent = some p → p.parent = none

/-! ## Spatial grid partitioners (`partitionAtomicUnitByAtom`,
`partitionAtomicUnitByResidue`).

`GridLookup3D` (mol-math/geometry) is an external collaborator; modelled
from the spec, its bucket output (`offset`, `count`, `array`) is a
partition of the positions `0 .. n-1` of the input index set into
contiguous bucket slices of a permutation array.  A bucket is modelled as
the list of positions of its slice. -/

/-- Modelled from the spec: validity of a `GridLookup3D` bucket output
over an input of `n` indices — together the buckets list every position
exactly once. -/
def IsBucketPartition (n : Nat) (buckets : List (List Nat)) : Prop :=
  buckets.flatten.Perm (List.range n)

/-- `partitionAtomicUnitByAtom`: bucket `i` emits the set
`{ indices[array[offset[i]+j]] : j < count[i] }`. -/
def partitionAtomicUnitByAtom (indices : List Int) (buckets : List (List Nat)) :
    List (List Int) :=
  buckets.map fun b => b.map fun p => indices.getD p 0

/-- The element range one residue segment contributes in
`partitionAtomicUnitByResidue`: the JS loop
`for (let l = startIndices[k], _l = endIndices[k]; l < _l; l++)` with
`startIndices[k] = indices[seg.start]` and `endIndices[k] =
indices[seg.end]`.  For the final residue segment `seg.end` equals
`indices.length`, so the JS read is out of bounds (`undefined`) and the
comparison `l < undefined` is false: the loop body never runs, modelled
by the `none` branch. -/
def residueSpan (indices : List Int) (seg : Nat × Nat) : List Int :=
  match indices.get? seg.2 with
  | none => []
  | some e =>
    let st := indices.getD seg.1 0
    (List.range (e - st).toNat).map fun i => st + i

/-- `partitionAtomicUnitByResidue`: residue segments (position pairs over
`indices`) are reduced to their first atoms, those are bucketed, and
bucket `i` emits the concatenation of the residue ranges of its
residues. -/
def partitionAtomicUnitByResidue (indices : List Int) (resSegs : List (Nat × Nat))
    (buckets : List (List Nat)) : List (List Int) :=
  buckets.map fun b =>
    (b.map fun k => residueSpan indices (resSegs.getD k (0, 0))).flatten

/-! ## Query/grouping engine (the atom-groups module).

An atom location is modelled as the pair (unit id, atom value); the
predicates and the group-by function take both.  A unit's hierarchy
(`chainSegments`, `residueSegments`) is modelled as nested segment lists
over positions of the unit's ordered atom set, as `Segmentation`'s
transient segment iterators walk them. -/

/-- An `AtomSet`: for each unit (by id, in order) its selected atoms. -/
abbrev AtomSet := List (Nat × List Nat)

/-- A `Selection`: empty, singleton picks, or a sequence of subsets —
the three shapes, never mixed. -/
inductive Selection where
  | empty
  | singletons (set : AtomSet)
  | sequence (sets : List AtomSet)
deriving DecidableEq, Repr

/-- One chain segment of a unit with its residue segments (as produced by
`residuesIt.setSegment(chainSegment)`): position pairs into the unit's
atom set. -/
structure QChain where
  seg : Nat × Nat
  residues : List (Nat × Nat)

/-- A unit as the query engine sees it: id, ordered atom set, and its
chain/residue segmentation. -/
structure QUnit where
  uid : Nat
  set : List Nat
  chains : List QChain

/-- Segments `[(s₁,e₁), …]` tile the interval `[a, b)` in order. -/
def tilesB : Nat → Nat → List (Nat × Nat) → Bool
  | a, b, [] => a == b
  | a, b, (s, e) :: rest => s == a && decide (a ≤ e) && tilesB e b rest

/-- Segmentation validity of a unit: the chain segments tile the whole
atom set and each chain's residue segments tile that chain segment. -/
def QUnit.valid (u : QUnit) : Bool :=
  tilesB 0 u.set.length (u.chains.map (·.seg)) &&
  u.chains.all fun c => tilesB c.seg.1 c.seg.2 c.residues

def validStructure (s : List QUnit) : Bool := s.all QUnit.valid

/-- The atoms at positions `[a, b)` of a unit's ordered set
(`OrderedSet.getAt(set, j)` for `j` in the segment). -/
def readSeg (set : List Nat) (a b : Nat) : List Nat :=
  (List.range' a (b - a)).map fun j => set.getD j 0

/-- `AtomSet.LinearBuilder`'s `beginUnit`/`addToUnit`/`commitUnit`
protocol over all units (mol-data, modelled from the spec): committing a
unit that collected no atoms adds nothing. -/
def commitUnits (per : List (Nat × List Nat)) : AtomSet :=
  per.filter fun p => !p.2.isEmpty

/-- `atomGroupsLinear`: one linear scan of every unit's atoms against the
atom test. -/
def atomGroupsLinear (atomTest : Nat → Nat → Bool) (s : List QUnit) : Selection :=
  .singletons (commitUnits (s.map fun u => (u.uid, u.set.filter (atomTest u.uid))))

/-- `P.constant.true`: the always-true predicate. -/
def constTrue : Nat → Nat → Bool := fun _ _ => true

/-- The segmented hierarchical traversal shared by `atomGroupsSegmented`
and `atomGroupsGrouped`: entity+chain tests on each chain segment's first
atom, the residue test on each residue segment's first atom, then the
atom test over the residue's atoms; `f` consumes the passing atoms of one
residue segment. -/
def segmentedScanUnit {α : Type} (entityTest chainTest residueTest atomTest : Nat → Nat → Bool)
    (u : QUnit) (f : List Nat → List α) : List α :=
  (u.chains.map fun c =>
    if entityTest u.uid (u.set.getD c.seg.1 0) && chainTest u.uid (u.set.getD c.seg.1 0) then
      (c.residues.map fun r =>
        if residueTest u.uid (u.set.getD r.1 0) then
          f ((readSeg u.set r.1 r.2).filter (atomTest u.uid))
        else []).flatten
    else []).flatten

/-- `atomGroupsSegmented`: the hierarchical filter without grouping. -/
def atomGroupsSegmented (entityTest chainTest residueTest atomTest : Nat → Nat → Bool)
    (s : List QUnit) : Selection :=
  .singletons (commitUnits (s.map fun u =>
    (u.uid, segmentedScanUnit entityTest chainTest residueTest atomTest u id)))

/-- Appending a value under a key into a keyed builder list: grow the
key's builder when one exists (`builderMap.get(key)`), else append a new
builder for the key (first-seen key order). -/
def addKeyed {β : Type} (bs : List (Nat × List β)) (k : Nat) (v : β) :
    List (Nat × List β) :=
  if bs.any (fun b => b.1 == k) then
    bs.map fun b => if b.1 == k then (b.1, b.2 ++ [v]) else b
  else bs ++ [(k, [v])]

/-- `AtomSet.ofAtoms` / a grouping builder's `getSet` (mol-data, modelled
from the spec): collect (unit, atom) picks into per-unit lists, units in
first-seen order. -/
def ofAtoms (ps : List (Nat × Nat)) : AtomSet :=
  ps.foldl (fun acc p => addKeyed acc p.1 p.2) []

/-- The state of `LinearGroupingBuilder`: for each group key, in
first-seen-key order, the (unit, atom) pairs its builder accumulated. -/
def buildGrouping (events : List (Nat × Nat × Nat)) : List (Nat × List (Nat × Nat)) :=
  events.foldl (fun bs e => addKeyed bs e.1 e.2) []

/-- `allSingletons`: no builder accumulated more than one atom. -/
def allSingletonsB (bs : List (Nat × List (Nat × Nat))) : Bool :=
  bs.all fun b => !decide (b.2.length > 1)

/-- `singletonSelection`: each builder contributes its single atom. -/
def singletonSelection (bs : List (Nat × List (Nat × Nat))) : Selection :=
  .singletons (ofAtoms (bs.map fun b => b.2.headD (0, 0)))

/-- `fullSelection`: one `AtomSet` per builder. -/
def fullSelection (bs : List (Nat × List (Nat × Nat))) : Selection :=
  .sequence (bs.map fun b => ofAtoms b.2)

/-- `LinearGroupingBuilder.getSelection`: empty with no builders, the
singleton shape when every builder holds one atom, the full shape
otherwise. -/
def groupingGetSelection (bs : List (Nat × List (Nat × Nat))) : Selection :=
  if bs.length = 0 then .empty
  else if allSingletonsB bs then singletonSelection bs
  else fullSelection bs

/-- The (group key, unit, atom) routing events `atomGroupsGrouped`'s scan
feeds the grouping builder, in scan order. -/
def groupedEvents (entityTest chainTest residueTest atomTest : Nat → Nat → Bool)
    (groupBy : Nat → Nat → Nat) (s : List QUnit) : List (Nat × Nat × Nat) :=
  (s.map fun u =>
    segmentedScanUnit entityTest chainTest residueTest atomTest u
      (fun atoms => atoms.map fun a => (groupBy u.uid a, u.uid, a))).flatten

/-- `atomGroupsGrouped`: the hierarchical scan routing passing atoms into
the per-key grouping builder. -/
def atomGroupsGrouped (entityTest chainTest residueTest atomTest : Nat → Nat → Bool)
    (groupBy : Nat → Nat → Nat) (s : List QUnit) : Selection :=
  groupingGetSelection (buildGrouping
    (groupedEvents entityTest chainTest residueTest atomTest groupBy s))

/-- The optional query parameters of `atoms`. -/
structure AtomQueryParams where
  entityTest : Option (Nat → Nat → Bool) := none
  chainTest : Option (Nat → Nat → Bool) := none
  residueTest : Option (Nat → Nat → Bool) := none
  atomTest : Option (Nat → Nat → Bool) := none
  groupBy : Option (Nat → Nat → Nat) := none

/-- `all`: the whole structure as one selection. -/
def allQuery (s : List QUnit) : Selection :=
  .singletons (s.map fun u => (u.uid, u.set))

/-- The `atoms` dispatcher: no parameters — the trivial all-pass query;
only an atom test — the flat linear strategy; otherwise normalize the
predicates to always-true defaults and run the segmented strategy, or the
grouped strategy when a group-by is present. -/
def atomsQuery (params : AtomQueryParams) (s : List QUnit) : Selection :=
  if params.atomTest.isNone && params.residueTest.isNone && params.chainTest.isNone
      && params.entityTest.isNone && params.groupBy.isNone then
    allQuery s
  else if params.atomTest.isSome && params.residueTest.isNone && params.chainTest.isNone
      && params.entityTest.isNone && params.groupBy.isNone then
    atomGroupsLinear (params.atomTest.getD constTrue) s
  else if params.groupBy.isNone then
    atomGroupsSegmented (params.entityTest.getD constTrue) (params.chainTest.getD constTrue)
      (params.residueTest.getD constTrue) (params.atomTest.getD constTrue) s
  else
    atomGroupsGrouped (params.entityTest.getD constTrue) (params.chainTest.getD constTrue)
      (params.residueTest.getD constTrue) (params.atomTest.getD constTrue)
      ((params.groupBy).getD (fun _ _ => 0)) s

/-- Validity of the `hashCode` cache: unset, or holding the computed
hash — the states reachable through the getter. -/
def hashCacheOK (s : Structure) : Prop :=
  s.hashCodeCache = -1 ∨ s.hashCodeCache = computeHashUnits s.units s.elementCount

/-- Validity of the `transformHash` cache. -/
def transformHashCacheOK (s : Structure) : Prop :=
  s.transformHashCache = -1 ∨
  s.transformHashCache = (hashFnv32a (s.units.map (·.id)) : Int)

/-! ## Basic accessor lemmas -/

@[simp] theorem Structure.units_mk (u p m r c h t) :
    (Structure.mk u p m r c h t).units = u := rfl

@[simp] theorem Structure.parent_mk (u p m r c h t) :
    (Structure.mk u p m r c h t).parent = p := rfl

@[simp] theorem Structure.masterModel_mk (u p m r c h t) :
    (Structure.mk u p m r c h t).masterModel = m := rfl

@[simp] theorem Structure.representativeModel_mk (u p m r c h t) :
    (Structure.mk u p m r c h t).representativeModel = r := rfl

@[simp] theorem Structure.modelCache_mk (u p m r c h t) :
    (Structure.mk u p m r c h t).modelCache = c := rfl

@[simp] theorem Structure.hashCodeCache_mk (u p m r c h t) :
    (Structure.mk u p m r c h t).hashCodeCache = h := rfl

@[simp] theorem Structure.transformHashCache_mk (u p m r c h t) :
    (Structure.mk u p m r c h t).transformHashCache = t := rfl

@[simp] theorem Structure.units_withHashCache (s : Structure) (h : Int) :
    (s.withHashCache h).units = s.units := by cases s; rfl

@[simp] theorem Structure.hashCodeCache_withHashCache (s : Structure) (h : Int) :
    (s.withHashCache h).hashCodeCache = h := by cases s; rfl

@[simp] theorem Structure.units_withTransformHashCache (s : Structure) (h : Int) :
    (s.withTransformHashCache h).units = s.units := by cases s; rfl

@[simp] theorem Structure.transformHashCache_withTransformHashCache (s : Structure) (h : Int) :
    (s.withTransformHashCache h).transformHashCache = h := by cases s; rfl

@[simp] theorem Structure.elementCount_withHashCache (s : Structure) (h : Int) :
    (s.withHashCache h).elementCount = s.elementCount := by
  simp [Structure.elementCount]

@[simp] theorem Structure.parent_make (units : List StructUnit) (props : Props) :
    (Structure.make units props).parent = props.parent.map fun p => p.parent.getD p := rfl

@[simp] theorem Structure.units_make (units : List StructUnit) (props : Props) :
    (Structure.make units props).units = initUnitsArray units := rfl

/-! ## C9: identity transform returns the same structure -/

/-- C9: for a matrix recognized as the identity, `Structure.transform`
returns the given structure itself, allocating nothing (in the embedding,
the result is the very value `s`). -/
theorem c9_transform_identity (s : Structure) (m : Mat4) (h : m.isIdentity = true) :
    s.transform m = .ok s := by
  simp [Structure.transform, h]

/-- Witness for C9 at a concrete structure and the identity matrix. -/
theorem c9_transform_identity_witness :
    Structure.transform (.mk [] none none none none (-1) (-1)) ⟨true, true⟩ =
      .ok (.mk [] none none none none (-1) (-1)) :=
  c9_transform_identity _ _ rfl

/-! ## C6: a non rotation+translation transform is rejected -/

/-- C6: for a matrix that is neither the identity nor expressible as
rotation+translation, `Structure.transform` raises the error immediately
and produces no new structure (and, the embedding being pure, `s` itself
is untouched). -/
theorem c6_invalid_transform (s : Structure) (m : Mat4)
    (h1 : m.isIdentity = false) (h2 : m.isRotationAndTranslation = false) :
    s.transform m = .error "Only rotation/translation combination can be applied."
    ∧ ∀ t, s.transform m ≠ .ok t := by
  refine ⟨by simp [Structure.transform, h1, h2], fun t ht => ?_⟩
  rw [Structure.transform] at ht
  simp [h1, h2] at ht

/-- Witness for C6 at a concrete structure and invalid matrix. -/
theorem c6_invalid_transform_witness :
    Structure.transform (.mk [] none none none none (-1) (-1)) ⟨false, false⟩ =
      .error "Only rotation/translation combination can be applied." :=
  (c6_invalid_transform (.mk [] none none none none (-1) (-1)) ⟨false, false⟩ rfl rfl).1

/-! ## C8: provenance collapses to one level -/

/-- C8: a structure constructed with a parent stores the given parent's
own parent when that exists and the given parent otherwise; with a
well-formed parent the stored parent has no parent itself, `root` reaches
the ultimate ancestor in one hop, and the parent of `transform s m` is
`s.root`. -/
theorem c8_parent_collapse (units : List StructUnit) (props : Props) (p : Structure)
    (hp : props.parent = some p) (hnp : noNestedParent p) :
    (Structure.make units props).parent = some (p.parent.getD p)
    ∧ noNestedParent (Structure.make units props)
    ∧ (Structure.make units props).root = p.root
    ∧ (Structure.make units props).root.parent = none
    ∧ (∀ (s t : Structure) (m : Mat4), m.isIdentity = false →
        s.transform m = .ok t → t.parent = some s.root) := by
  have hparent : (Structure.make units props).parent = some (p.parent.getD p) := by
    simp [hp]
  refine ⟨hparent, ?_, ?_, ?_, ?_⟩
  · intro q hq
    rw [hparent] at hq
    cases hq
    cases hpp : p.parent with
    | none => simp [Structure.root, hpp]
    | some gp => simpa [Structure.root, hpp] using hnp gp hpp
  · rw [Structure.root, hparent, Structure.root]
    rfl
  · rw [Structure.root, hparent]
    cases hpp : p.parent with
    | none => simp [Structure.root, hpp]
    | some gp => simpa [Structure.root, hpp] using hnp gp hpp
  · intro s t m hm ht
    rw [Structure.transform] at ht
    rw [if_neg (by simp [hm])] at ht
    by_cases hrt : m.isRotationAndTranslation
    · rw [if_neg (by simp [hrt])] at ht
      cases ht
      simp [Structure.root]
    · rw [if_pos (by simp [hrt])] at ht
      cases ht

/-- Witness for C8 at a concrete parentless parent. -/
theorem c8_parent_collapse_witness :
    (Structure.make [] { parent := some (.mk [] none none none none (-1) (-1)) }).parent =
      some (.mk [] none none none none (-1) (-1)) :=
  (c8_parent_collapse [] _ (.mk [] none none none none (-1) (-1)) rfl
    (fun _ h => Option.noConfusion h)).1

/-! ## C10: the constructor owns and sorts the caller's unit array -/

instance : IsTotal StructUnit (fun a b => a.id ≤ b.id) :=
  ⟨fun a b => Nat.le_total a.id b.id⟩

instance : IsTrans StructUnit (fun a b => a.id ≤ b.id) :=
  ⟨fun _ _ _ => Nat.le_trans⟩

theorem sortUnitsById_perm (l : List StructUnit) : (sortUnitsById l).Perm l :=
  List.perm_insertionSort _ l

theorem sortUnitsById_sorted (l : List StructUnit) :
    List.Sorted (fun a b => a.id ≤ b.id) (sortUnitsById l) :=
  List.sorted_insertionSort _ l

theorem unitsSortedById_of_sorted :
    ∀ l : List StructUnit, List.Sorted (fun a b => a.id ≤ b.id) l →
      unitsSortedById l = true := by
  intro l
  induction l with
  | nil => intro _; rfl
  | cons u tl ih =>
    intro h
    cases tl with
    | nil => rfl
    | cons v rest =>
      have h1 : u.id ≤ v.id := (List.sorted_cons.1 h).1 v (List.mem_cons_self v rest)
      have h2 : unitsSortedById (v :: rest) = true := ih (List.sorted_cons.1 h).2
      simp [unitsSortedById, h2, Nat.not_lt, h1]

/-- C10: the constructor takes ownership of the caller's unit array: the
array content after construction is the input when it was already sorted
by id and its in-place sort (a caller-visible mutation, modelled by state
passing through `initUnitsArray`) otherwise; `structure.units` is that
very array, which is always an id-sorted permutation of the input. -/
theorem c10_constructor_owns_units (units : List StructUnit) (props : Props) :
    (Structure.make units props).units = initUnitsArray units
    ∧ (unitsSortedById units = true → initUnitsArray units = units)
    ∧ (unitsSortedById units = false → initUnitsArray units = sortUnitsById units)
    ∧ (initUnitsArray units).Perm units
    ∧ unitsSortedById (initUnitsArray units) = true := by
  refine ⟨rfl, ?_, ?_, ?_, ?_⟩
  · intro h; simp [initUnitsArray, h]
  · intro h; simp [initUnitsArray, h]
  · unfold initUnitsArray
    split
    · exact List.Perm.refl units
    · exact sortUnitsById_perm units
  · unfold initUnitsArray
    split
    · assumption
    · exact unitsSortedById_of_sorted _ (sortUnitsById_sorted units)

/-! ## C5: `model` resolution -/

/-- C5, counterexample: a structure referencing exactly one model but
carrying a designated representative model that differs from it returns
the representative, not the single referenced model — the designated
model is consulted before the referenced-model count, so the claim's
"when exactly one model is referenced it is returned" fails here. -/
theorem c5_representative_overrides_single_model :
    Structure.modelsOf (.mk [⟨1, 0, 0, 1, ⟨true, true⟩, [0]⟩] none none (some 2) none (-1) (-1))
      = [1]
    ∧ Structure.getModel (.mk [⟨1, 0, 0, 1, ⟨true, true⟩, [0]⟩] none none (some 2) none (-1) (-1))
      = .ok (some 2, .mk [⟨1, 0, 0, 1, ⟨true, true⟩, [0]⟩] none none (some 2) none (-1) (-1))
    ∧ (some 2 : Option Nat) ≠ some 1 :=
  ⟨rfl, rfl, by decide⟩

/-- C5, amended: the designated representative model is returned first,
then the designated master model; only then does the referenced-model
count decide — more than one referenced model fails with the
ambiguous-multi-model error, and otherwise the single referenced model
(or `none` for an empty structure) is returned and cached. -/
theorem c5_model_resolution (s : Structure) (hc : s.modelCache = none) :
    (∀ r, s.representativeModel = some r → s.getModel = .ok (some r, s))
    ∧ (∀ m, s.representativeModel = none → s.masterModel = some m →
        s.getModel = .ok (some m, s))
    ∧ (s.representativeModel = none → s.masterModel = none → 1 < s.modelsOf.length →
        s.getModel = .error "The structure is based on multiple models and has neither a master- nor a representative-model.")
    ∧ (s.representativeModel = none → s.masterModel = none → s.modelsOf.length ≤ 1 →
        s.getModel = .ok (s.modelsOf.head?, s.withModelCache s.modelsOf.head?)) := by
  refine ⟨?_, ?_, ?_, ?_⟩
  · intro r hr
    simp [Structure.getModel, hc, hr]
  · intro m h1 h2
    simp [Structure.getModel, hc, h1, h2]
  · intro h1 h2 h3
    simp only [Structure.getModel, hc, h1, h2]
    rw [if_pos h3]
  · intro h1 h2 h3
    simp only [Structure.getModel, hc, h1, h2]
    rw [if_neg (by omega)]

/-- Witness for C5's amended resolution on a single-model structure with
no designated models: the single referenced model is returned. -/
theorem c5_model_resolution_witness :
    Structure.getModel (.mk [⟨1, 0, 0, 1, ⟨true, true⟩, [0]⟩] none none none none (-1) (-1)) =
      .ok (some 1, .mk [⟨1, 0, 0, 1, ⟨true, true⟩, [0]⟩] none none none (some 1) (-1) (-1)) :=
  (c5_model_resolution (.mk [⟨1, 0, 0, 1, ⟨true, true⟩, [0]⟩] none none none none (-1) (-1))
    rfl).2.2.2 rfl rfl (by decide)

/-! ## C1: `hashCode` purity and stability -/

theorem computeHashUnits_ne_neg_one (us : List StructUnit) (ec : Int) :
    computeHashUnits us ec ≠ -1 := by
  unfold computeHashUnits
  dsimp only
  split
  · decide
  · assumption

theorem computeHashUnits_eq_pureHashPairs (us : List StructUnit) :
    computeHashUnits us ((us.map fun u => (u.elements.length : Int)).sum) =
      pureHashPairs (us.map fun u => (u.id, u.elements)) := by
  unfold computeHashUnits pureHashPairs
  rw [List.foldl_map, List.map_map]
  rfl

theorem getHashCode_fst (s : Structure) (hs : hashCacheOK s) :
    (s.getHashCode).1 = computeHashUnits s.units s.elementCount := by
  rcases hs with h | h
  · simp [Structure.getHashCode, h]
  · rw [Structure.getHashCode]
    split
    · exact h
    · rfl

theorem hashCacheOK_getHashCode_snd (s : Structure) (hs : hashCacheOK s) :
    hashCacheOK (s.getHashCode).2 := by
  rw [Structure.getHashCode]
  split
  · exact hs
  · right
    simp [Structure.elementCount]

/-- C1: `hashCode` is stable across repeated calls in any valid cache
state (arbitrary warm state of the other caches), and is a pure function
of the ordered (unit id, element index-set) pairs — which also determine
the element count — so two structures with identical pairs hash
equally. -/
theorem c1_hashCode_pure (s t : Structure) (hs : hashCacheOK s) (ht : hashCacheOK t)
    (hst : s.units.map (fun u => (u.id, u.elements)) = t.units.map (fun u => (u.id, u.elements))) :
    (s.getHashCode).1 = pureHashPairs (s.units.map fun u => (u.id, u.elements))
    ∧ ((s.getHashCode).2.getHashCode).1 = (s.getHashCode).1
    ∧ (s.getHashCode).1 = (t.getHashCode).1 := by
  have hpure : ∀ r : Structure, hashCacheOK r →
      (r.getHashCode).1 = pureHashPairs (r.units.map fun u => (u.id, u.elements)) := by
    intro r hr
    rw [getHashCode_fst r hr, Structure.elementCount, computeHashUnits_eq_pureHashPairs]
  refine ⟨hpure s hs, ?_, ?_⟩
  · rw [hpure s hs, hpure _ (hashCacheOK_getHashCode_snd s hs)]
    have : (s.getHashCode).2.units = s.units := by
      rw [Structure.getHashCode]
      split
      · rfl
      · simp
    rw [this]
  · rw [hpure s hs, hpure t ht, hst]

/-- Witness for C1: two concrete structures with identical unit
(id, elements) pairs but different warm state of the other caches hash
equally. -/
theorem c1_hashCode_pure_witness :
    ((Structure.mk [⟨1, 0, 0, 1, ⟨true, true⟩, [0, 5]⟩] none none none none (-1) (-1)).getHashCode).1 =
      ((Structure.mk [⟨1, 0, 0, 1, ⟨true, true⟩, [0, 5]⟩] none none none (some 7) (-1) 42).getHashCode).1 :=
  (c1_hashCode_pure
    (.mk [⟨1, 0, 0, 1, ⟨true, true⟩, [0, 5]⟩] none none none none (-1) (-1))
    (.mk [⟨1, 0, 0, 1, ⟨true, true⟩, [0, 5]⟩] none none none (some 7) (-1) 42)
    (Or.inl rfl) (Or.inl rfl) rfl).2.2

/-! ## C7: `transformHash` depends on unit ids only -/

/-- The adjacent-descent scan on a plain id list; `unitsSortedById`
factors through it, showing sorted-order detection reads ids only. -/
def idsChain : List Nat → Bool
  | a :: b :: rest => !(b < a : Bool) && idsChain (b :: rest)
  | _ => true

theorem unitsSortedById_eq_idsChain :
    ∀ l : List StructUnit, unitsSortedById l = idsChain (l.map (·.id)) := by
  intro l
  induction l with
  | nil => rfl
  | cons u tl ih =>
    cases tl with
    | nil => rfl
    | cons v rest =>
      show (!(v.id < u.id : Bool) && unitsSortedById (v :: rest)) =
        (!(v.id < u.id : Bool) && idsChain (v.id :: rest.map (·.id)))
      rw [ih, List.map_cons]

theorem transform_map_ids (s : Structure) (m : Mat4) :
    ((s.units.map fun u => u.applyOperator u.id m).map (·.id)) = s.units.map (·.id) := by
  rw [List.map_map]
  rfl

theorem transform_preserves_ids (s t' : Structure) (m : Mat4)
    (h : s.transform m = .ok t') (hsort : unitsSortedById s.units = true) :
    t'.units.map (·.id) = s.units.map (·.id) := by
  rw [Structure.transform] at h
  by_cases hid : m.isIdentity
  · rw [if_pos (by simp [hid])] at h
    cases h
    rfl
  · rw [if_neg (by simp [hid])] at h
    by_cases hrt : m.isRotationAndTranslation
    · rw [if_neg (by simp [hrt])] at h
      cases h
      have hsort2 : unitsSortedById (s.units.map fun u => u.applyOperator u.id m) = true := by
        rw [unitsSortedById_eq_idsChain, transform_map_ids, ← unitsSortedById_eq_idsChain]
        exact hsort
      simp only [Structure.units_make, initUnitsArray, hsort2, if_pos]
      exact transform_map_ids s m
    · rw [if_pos (by simp [hrt])] at h
      cases h

theorem transform_cacheOK (s t' : Structure) (m : Mat4)
    (h : s.transform m = .ok t') (hs : transformHashCacheOK s) :
    transformHashCacheOK t' := by
  rw [Structure.transform] at h
  by_cases hid : m.isIdentity
  · rw [if_pos (by simp [hid])] at h
    cases h
    exact hs
  · rw [if_neg (by simp [hid])] at h
    by_cases hrt : m.isRotationAndTranslation
    · rw [if_neg (by simp [hrt])] at h
      cases h
      exact Or.inl rfl
    · rw [if_pos (by simp [hrt])] at h
      cases h

theorem getTransformHash_fst (s : Structure) (hs : transformHashCacheOK s) :
    (s.getTransformHash).1 = (hashFnv32a (s.units.map (·.id)) : Int) := by
  rcases hs with h | h
  · simp [Structure.getTransformHash, h]
  · rw [Structure.getTransformHash]
    split
    · exact h
    · rfl

/-- C7, amended: `transformHash` is a pure function of the ordered list
of unit ids and of nothing else; since `Structure.transform` rebuilds
every unit under its old id (`u.applyOperator(u.id, op)`), a transformed
structure keeps the ids and hence the `transformHash` of the original —
only unit replacement under fresh ids (as in symmetry expansion) can
change it. -/
theorem c7_transformHash_ids (s t : Structure) (m : Mat4)
    (hs : transformHashCacheOK s) (ht : transformHashCacheOK t)
    (hsort : unitsSortedById s.units = true) :
    (s.getTransformHash).1 = (hashFnv32a (s.units.map (·.id)) : Int)
    ∧ (s.units.map (·.id) = t.units.map (·.id) →
        (s.getTransformHash).1 = (t.getTransformHash).1)
    ∧ (∀ t', s.transform m = .ok t' → t'.units.map (·.id) = s.units.map (·.id))
    ∧ (∀ t', s.transform m = .ok t' →
        (t'.getTransformHash).1 = (s.getTransformHash).1) := by
  refine ⟨getTransformHash_fst s hs, ?_, ?_, ?_⟩
  · intro hids
    rw [getTransformHash_fst s hs, getTransformHash_fst t ht, hids]
  · intro t' h
    exact transform_preserves_ids s t' m h hsort
  · intro t' h
    rw [getTransformHash_fst s hs, getTransformHash_fst t' (transform_cacheOK s t' m h hs),
      transform_preserves_ids s t' m h hsort]

/-- C7, counterexample: transforming a structure by a concrete
non-identity rotation+translation yields a structure with the very same
`transformHash`, contradicting the claim that it differs. -/
theorem c7_transform_keeps_transformHash :
    (Structure.transform (.mk [⟨1, 0, 0, 1, ⟨true, true⟩, [0, 1]⟩] none none none none (-1) (-1))
        ⟨false, true⟩).map (fun t => (t.getTransformHash).1) =
      .ok (((Structure.mk [⟨1, 0, 0, 1, ⟨true, true⟩, [0, 1]⟩] none none none none (-1) (-1)).getTransformHash).1)
    ∧ Mat4.isIdentity ⟨false, true⟩ = false
    ∧ Mat4.isRotationAndTranslation ⟨false, true⟩ = true := by
  refine ⟨?_, rfl, rfl⟩
  rfl

/-- Witness for C7's amended statement at a concrete structure. -/
theorem c7_transformHash_ids_witness :
    ((Structure.mk [⟨1, 0, 0, 1, ⟨true, true⟩, [0, 1]⟩] none none none none (-1) (-1)).getTransformHash).1 =
      (hashFnv32a [1] : Int) :=
  (c7_transformHash_ids
    (.mk [⟨1, 0, 0, 1, ⟨true, true⟩, [0, 1]⟩] none none none none (-1) (-1))
    (.mk [⟨1, 0, 0, 1, ⟨true, true⟩, [0, 1]⟩] none none none none (-1) (-1))
    ⟨false, true⟩ (Or.inl rfl) (Or.inl rfl) rfl).1

/-! ## C2: grid-partition round trip -/

theorem map_getD_range {α : Type} (l : List α) (d : α) :
    (List.range l.length).map (fun i => l.getD i d) = l := by
  induction l with
  | nil => rfl
  | cons a t ih =>
    rw [List.length_cons, List.range_succ_eq_map, List.map_cons, List.map_map]
    have hcomp : ((fun i => (a :: t).getD i d) ∘ Nat.succ) = fun i => t.getD i d :=
      funext fun i => rfl
    rw [hcomp, ih]
    rfl

/-- The per-atom partitioner satisfies the round trip: over any valid
bucket partition, the emitted element sets together are a permutation of
the input index set — every input index lands in exactly one bucket. -/
theorem partitionByAtom_roundTrip (indices : List Int) (buckets : List (List Nat))
    (h : IsBucketPartition indices.length buckets) :
    (partitionAtomicUnitByAtom indices buckets).flatten.Perm indices := by
  unfold partitionAtomicUnitByAtom
  rw [(List.map_flatten (fun p => indices.getD p 0) buckets).symm]
  have hm := h.map (fun p => indices.getD p 0)
  rwa [map_getD_range] at hm

/-- C2, failing input: `partitionAtomicUnitByResidue` on the contiguous
index range `[0,6)` segmented into residues `[0,3)` and `[3,6)` (with all
residue representatives in one bucket) emits only the first residue's
atoms: `endIndices` of the final residue segment is the out-of-bounds
read `indices[6]`, so atoms 3, 4, 5 are dropped from every bucket and the
round-trip union property fails. -/
theorem c2_residue_partition_drops_last_residue :
    partitionAtomicUnitByResidue [0, 1, 2, 3, 4, 5] [(0, 3), (3, 6)] [[0, 1]] = [[0, 1, 2]]
    ∧ (3 : Int) ∈ ([0, 1, 2, 3, 4, 5] : List Int)
    ∧ (3 : Int) ∉ (partitionAtomicUnitByResidue [0, 1, 2, 3, 4, 5] [(0, 3), (3, 6)] [[0, 1]]).flatten := by
  refine ⟨by decide, by decide, by decide⟩

/-! ## C4: the grouping accumulator and its selection shapes -/

theorem addKeyed_map_fst {β : Type} (bs : List (Nat × List β)) (k : Nat) (v : β) :
    (addKeyed bs k v).map Prod.fst =
      if k ∈ bs.map Prod.fst then bs.map Prod.fst else bs.map Prod.fst ++ [k] := by
  by_cases h : k ∈ bs.map Prod.fst
  · have hany : bs.any (fun b => b.1 == k) = true := by
      rw [List.any_eq_true]
      obtain ⟨b, hb, hfst⟩ := List.mem_map.1 h
      exact ⟨b, hb, by simp [hfst]⟩
    rw [if_pos h]
    unfold addKeyed
    rw [if_pos hany, List.map_map]
    refine List.map_congr_left fun b _ => ?_
    simp only [Function.comp_apply]
    split
    · rfl
    · rfl
  · have hany : bs.any (fun b => b.1 == k) = false := by
      rw [List.any_eq_false]
      intro b hb hk
      exact h (List.mem_map.2 ⟨b, hb, by simpa using hk⟩)
    rw [if_neg h]
    unfold addKeyed
    rw [hany]
    simp

theorem addKeyed_ne_nil {β : Type} (bs : List (Nat × List β)) (k : Nat) (v : β) :
    addKeyed bs k v ≠ [] := by
  unfold addKeyed
  split
  next h =>
    intro hc
    rw [List.map_eq_nil_iff] at hc
    subst hc
    simp at h
  next => simp

theorem addKeyed_values_ne_nil {β : Type} (bs : List (Nat × List β)) (k : Nat) (v : β)
    (h : ∀ b ∈ bs, b.2 ≠ []) : ∀ b ∈ addKeyed bs k v, b.2 ≠ [] := by
  intro b hb
  unfold addKeyed at hb
  split at hb
  · obtain ⟨b', hb', hbe⟩ := List.mem_map.1 hb
    by_cases hk : (b'.1 == k) = true
    · rw [if_pos hk] at hbe
      rw [← hbe]
      simp
    · rw [if_neg hk] at hbe
      rw [← hbe]
      exact h b' hb'
  · rcases List.mem_append.1 hb with h1 | h1
    · exact h b h1
    · simp only [List.mem_singleton] at h1
      subst h1
      simp

theorem foldl_addKeyed_map_fst {β : Type} :
    ∀ (events : List (Nat × β)) (bs : List (Nat × List β)),
      ((events.foldl (fun bs e => addKeyed bs e.1 e.2) bs).map Prod.fst) =
        events.foldl (fun acc e => if e.1 ∈ acc then acc else acc ++ [e.1]) (bs.map Prod.fst) := by
  intro events
  induction events with
  | nil => intro bs; rfl
  | cons e rest ih =>
    intro bs
    rw [List.foldl_cons, List.foldl_cons, ih, addKeyed_map_fst]

theorem foldl_addKeyed_values_ne_nil {β : Type} :
    ∀ (events : List (Nat × β)) (bs : List (Nat × List β)),
      (∀ b ∈ bs, b.2 ≠ []) →
      ∀ b ∈ events.foldl (fun bs e => addKeyed bs e.1 e.2) bs, b.2 ≠ [] := by
  intro events
  induction events with
  | nil => intro bs h; exact h
  | cons e rest ih =>
    intro bs h
    rw [List.foldl_cons]
    exact ih _ (addKeyed_values_ne_nil bs e.1 e.2 h)

theorem foldl_addKeyed_ne_nil {β : Type} :
    ∀ (events : List (Nat × β)) (bs : List (Nat × List β)),
      bs ≠ [] ∨ events ≠ [] →
      events.foldl (fun bs e => addKeyed bs e.1 e.2) bs ≠ [] := by
  intro events
  induction events with
  | nil =>
    intro bs h
    rcases h with h | h
    · exact h
    · exact absurd rfl h
  | cons e rest ih =>
    intro bs _
    rw [List.foldl_cons]
    exact ih _ (Or.inl (addKeyed_ne_nil bs e.1 e.2))

/-- C4: the grouping accumulator keeps exactly one builder per distinct
group key, in first-seen-key order; every builder holds at least one
element; and `getSelection` is the empty selection exactly for an empty
scan, the singleton shape when every builder holds exactly one element,
and the full per-group-subset shape as soon as some builder holds more —
the shapes are the three disjoint constructors of `Selection`, never
mixed; `atomGroupsGrouped` is exactly this accumulator run over the
hierarchical scan's routing events. -/
theorem c4_grouping_builder (events : List (Nat × Nat × Nat)) :
    (buildGrouping events).map Prod.fst = firstDedup (events.map (·.1))
    ∧ (groupingGetSelection (buildGrouping events) = .empty ↔ events = [])
    ∧ (∀ b ∈ buildGrouping events, 1 ≤ b.2.length)
    ∧ ((buildGrouping events ≠ [] ∧ ∀ b ∈ buildGrouping events, b.2.length = 1) →
        groupingGetSelection (buildGrouping events) =
          .singletons (ofAtoms ((buildGrouping events).map fun b => b.2.headD (0, 0))))
    ∧ ((∃ b ∈ buildGrouping events, 1 < b.2.length) →
        groupingGetSelection (buildGrouping events) =
          .sequence ((buildGrouping events).map fun b => ofAtoms b.2))
    ∧ (∀ eT cT rT aT gb s, atomGroupsGrouped eT cT rT aT gb s =
        groupingGetSelection (buildGrouping (groupedEvents eT cT rT aT gb s))) := by
  refine ⟨?_, ?_, ?_, ?_, ?_, fun _ _ _ _ _ _ => rfl⟩
  · rw [buildGrouping, foldl_addKeyed_map_fst, firstDedup, List.foldl_map]
    rfl
  · constructor
    · intro h
      by_contra hne
      have hbs : buildGrouping events ≠ [] :=
        foldl_addKeyed_ne_nil events [] (Or.inr hne)
      rw [groupingGetSelection] at h
      rw [if_neg (fun hz => hbs (List.length_eq_zero.1 hz))] at h
      split at h
      · exact Selection.noConfusion h
      · exact Selection.noConfusion h
    · intro h
      subst h
      rfl
  · intro b hb
    have := foldl_addKeyed_values_ne_nil events [] (by simp) b hb
    exact Nat.one_le_iff_ne_zero.2 fun hz => this (List.length_eq_zero.1 hz)
  · intro ⟨hne, hlen⟩
    have hall : allSingletonsB (buildGrouping events) = true := by
      rw [allSingletonsB, List.all_eq_true]
      intro b hb
      simp [hlen b hb]
    rw [groupingGetSelection, if_neg (fun hz => hne (List.length_eq_zero.1 hz)), if_pos hall]
    rfl
  · intro ⟨b, hb, hlen⟩
    have hne : buildGrouping events ≠ [] := List.ne_nil_of_mem hb
    have hall : allSingletonsB (buildGrouping events) = false := by
      rw [allSingletonsB, List.all_eq_false]
      exact ⟨b, hb, by simp [hlen]⟩
    rw [groupingGetSelection, if_neg (fun hz => hne (List.length_eq_zero.1 hz)), hall]
    rfl

/-! ## C3: linear and segmented strategies agree -/

theorem tilesB_le : ∀ (segs : List (Nat × Nat)) (a b : Nat),
    tilesB a b segs = true → a ≤ b := by
  intro segs
  induction segs with
  | nil =>
    intro a b h
    simp only [tilesB, beq_iff_eq] at h
    omega
  | cons sg rest ih =>
    intro a b h
    obtain ⟨s, e⟩ := sg
    simp only [tilesB, Bool.and_eq_true, beq_iff_eq, decide_eq_true_eq] at h
    obtain ⟨⟨h1, h2⟩, h3⟩ := h
    exact le_trans h2 (ih _ _ h3)

theorem readSeg_append (set : List Nat) (a e b : Nat) (h1 : a ≤ e) (h2 : e ≤ b) :
    readSeg set a e ++ readSeg set e b = readSeg set a b := by
  unfold readSeg
  rw [← List.map_append]
  congr 1
  have hr := List.range'_append a (e - a) (b - e) 1
  rw [one_mul] at hr
  have ha : a + (e - a) = e := by omega
  have hb : (b - e) + (e - a) = b - a := by omega
  rw [ha, hb] at hr
  exact hr

theorem flatten_filter_readSeg (set : List Nat) (p : Nat → Bool) :
    ∀ (segs : List (Nat × Nat)) (a b : Nat), tilesB a b segs = true →
      ((segs.map fun r => (readSeg set r.1 r.2).filter p).flatten) =
        (readSeg set a b).filter p := by
  intro segs
  induction segs with
  | nil =>
    intro a b h
    simp only [tilesB, beq_iff_eq] at h
    subst h
    simp [readSeg]
  | cons sg rest ih =>
    intro a b h
    obtain ⟨s, e⟩ := sg
    simp only [tilesB, Bool.and_eq_true, beq_iff_eq, decide_eq_true_eq] at h
    obtain ⟨⟨h1, h2⟩, h3⟩ := h
    subst h1
    rw [List.map_cons, List.flatten_cons, ih e b h3, ← List.filter_append,
      readSeg_append set s e b h2 (tilesB_le rest e b h3)]

theorem readSeg_full (set : List Nat) : readSeg set 0 set.length = set := by
  unfold readSeg
  rw [Nat.sub_zero, ← List.range_eq_range', map_getD_range]

theorem segmentedScanUnit_trivial (test : Nat → Nat → Bool) (u : QUnit)
    (hv : u.valid = true) :
    segmentedScanUnit constTrue constTrue constTrue test u id = u.set.filter (test u.uid) := by
  simp only [QUnit.valid, Bool.and_eq_true, List.all_eq_true] at hv
  obtain ⟨hchains, hres⟩ := hv
  unfold segmentedScanUnit constTrue
  simp only [Bool.and_self, if_pos, id]
  have hinner : ∀ c ∈ u.chains,
      ((c.residues.map fun r => (readSeg u.set r.1 r.2).filter (test u.uid)).flatten) =
        (readSeg u.set c.seg.1 c.seg.2).filter (test u.uid) :=
    fun c hc => flatten_filter_readSeg u.set (test u.uid) c.residues _ _ (hres c hc)
  rw [List.map_congr_left hinner]
  have : (u.chains.map fun c => (readSeg u.set c.seg.1 c.seg.2).filter (test u.uid)) =
      ((u.chains.map (·.seg)).map fun sg => (readSeg u.set sg.1 sg.2).filter (test u.uid)) := by
    rw [List.map_map]
    rfl
  rw [this, flatten_filter_readSeg u.set (test u.uid) (u.chains.map (·.seg)) 0 u.set.length hchains,
    readSeg_full]

/-- C3: on any structure with a well-formed chain/residue segmentation,
the flat linear strategy and the segmented hierarchical strategy with the
entity, chain and residue predicates defaulted to always-true return the
same `Selection`; and the `atoms` dispatcher with only an atom test
supplied runs exactly the linear strategy. -/
theorem c3_linear_eq_segmented (s : List QUnit) (test : Nat → Nat → Bool)
    (hv : validStructure s = true) :
    atomGroupsLinear test s = atomGroupsSegmented constTrue constTrue constTrue test s
    ∧ atomsQuery { atomTest := some test } s = atomGroupsLinear test s := by
  constructor
  · rw [validStructure, List.all_eq_true] at hv
    unfold atomGroupsLinear atomGroupsSegmented
    have : (s.map fun u => (u.uid, u.set.filter (test u.uid))) =
        (s.map fun u => (u.uid, segmentedScanUnit constTrue constTrue constTrue test u id)) :=
      List.map_congr_left fun u hu => by rw [segmentedScanUnit_trivial test u (hv u hu)]
    rw [this]
  · rfl

/-- Witness for C3 at a concrete two-chain, three-residue unit and a
concrete atom test. -/
theorem c3_linear_eq_segmented_witness :
    atomGroupsLinear (fun _ a => a % 2 == 0)
        [⟨1, [10, 11, 12, 13], [⟨(0, 2), [(0, 1), (1, 2)]⟩, ⟨(2, 4), [(2, 4)]⟩]⟩] =
      atomGroupsSegmented constTrue constTrue constTrue (fun _ a => a % 2 == 0)
        [⟨1, [10, 11, 12, 13], [⟨(0, 2), [(0, 1), (1, 2)]⟩, ⟨(2, 4), [(2, 4)]⟩]⟩] :=
  (c3_linear_eq_segmented
    [⟨1, [10, 11, 12, 13], [⟨(0, 2), [(0, 1), (1, 2)]⟩, ⟨(2, 4), [(2, 4)]⟩]⟩]
    (fun _ a => a % 2 == 0) (by decide)).1

end Molstar
